import Mathlib

/-!
Shallow embedding of `scripts/generate_index_and_sitemap.py`.

The script is a linear pipeline: scan `posts/*/index.html`, extract
`<meta name=... content=...>` pairs by regular-expression matching, build a
list of post records sorted by date descending, then emit paginated JSON
index artifacts, a sitemap and an RSS feed.

The embedding models:
* the two metadata regexes `META_RE` and `META_RE_ALT` as deterministic
  scanners over character lists (both regexes are deterministic: every
  quantified class is followed by a literal that is disjoint from it, so
  maximal munch coincides with Python backtracking search);
* Python `datetime.strptime(s, %Y-%m-%d)` validation and the
  `strftime` RFC-822 rendering used by `format_rss_date`;
* `gather_posts`, `write_paginated_indexes`, `write_sitemap` and
  `write_rss` as pure functions, with the filesystem input given as a list
  of directory entries and warning prints modelled as an explicit log of
  skip reasons.

Strings are modelled over their character lists; whitespace, lowercasing
and stripping follow the ASCII behaviour of the Python functions used.
-/

/-- ASCII whitespace, the characters Python `\s` and `str.strip` treat as
space (space, tab, newline, carriage return, vertical tab, form feed). -/
def pySpace (c : Char) : Bool :=
  c == ' ' || c == '\t' || c == '\n' || c == '\r' || c == '\x0b' || c == '\x0c'

/-- Python `str.strip` on a character list. -/
def pyStrip (s : List Char) : List Char :=
  ((s.dropWhile pySpace).reverse.dropWhile pySpace).reverse

/-- Python `str.lower` (ASCII). -/
def pyLower (s : List Char) : List Char := s.map Char.toLower

/-- The character class `["\']` of both regexes. -/
def isQuote (c : Char) : Bool := c == '"' || c == '\''

/-- Match a literal regex fragment case-insensitively (`re.I`); the
pattern is given in lowercase.  Returns the rest of the input. -/
def litCI : List Char → List Char → Option (List Char)
  | [], s => some s
  | _ :: _, [] => none
  | p :: ps, c :: cs => if c.toLower == p then litCI ps cs else none

/-- Match `\s+`: at least one whitespace character, maximal munch (the
following literal in both regexes starts with a non-space character, so
this is exactly Python's backtracking behaviour). -/
def wsPlus : List Char → Option (List Char)
  | [] => none
  | c :: cs => if pySpace c then some (cs.dropWhile pySpace) else none

/-- Match `["\']([^"\']*)["\']`: a quote, a maximal run of non-quote
characters (the capture), a quote.  The regexes do not require the two
quotes to be equal, and neither does this. -/
def quotedVal (s : List Char) : Option (List Char × List Char) :=
  match s with
  | [] => none
  | c :: cs =>
    if isQuote c then
      match cs.dropWhile (fun d => !isQuote d) with
      | q :: rest =>
        if isQuote q then some (cs.takeWhile (fun d => !isQuote d), rest) else none
      | [] => none
    else none

/-- Match the `s+` fragment of `META_RE_ALT` (the source writes `s+`
where `\s+` was evidently intended, so this is a literal letter `s`,
case-insensitive under `re.I`, repeated at least once). -/
def sPlus : List Char → Option (List Char)
  | [] => none
  | c :: cs =>
    if c.toLower == 's' then some (cs.dropWhile (fun d => d.toLower == 's')) else none

/-- One anchored match attempt of
`META_RE = <meta\s+name=["\']([^"\']+)["\']\s+content=["\']([^"\']*)["\']`.
Returns ((group 1, group 2), rest). -/
def META_RE_matchAt (s : List Char) : Option ((List Char × List Char) × List Char) := do
  let s ← litCI ("<meta".toList) s
  let s ← wsPlus s
  let s ← litCI ("name=".toList) s
  let (nm, s) ← quotedVal s
  guard (nm ≠ [])
  let s ← wsPlus s
  let s ← litCI ("content=".toList) s
  let (ct, s) ← quotedVal s
  pure ((nm, ct), s)

/-- One anchored match attempt of
`META_RE_ALT = <meta\s+content=["\']([^"\']*)["\']s+name=["\']([^"\']+)["\']`
(note the literal `s+` of the source).  Returns ((group 1, group 2), rest),
group 1 being the content and group 2 the name. -/
def META_RE_ALT_matchAt (s : List Char) : Option ((List Char × List Char) × List Char) := do
  let s ← litCI ("<meta".toList) s
  let s ← wsPlus s
  let s ← litCI ("content=".toList) s
  let (ct, s) ← quotedVal s
  let s ← sPlus s
  let s ← litCI ("name=".toList) s
  let (nm, s) ← quotedVal s
  guard (nm ≠ [])
  pure ((ct, nm), s)

/-- Model of `re.finditer`: scan left to right, non-overlapping matches, resuming
after each match; on failure advance one character.  Fuelled by the input
length (every match of either regex consumes at least one character). -/
def finditerAux (m : List Char → Option ((List Char × List Char) × List Char)) :
    Nat → List Char → List (List Char × List Char)
  | 0, _ => []
  | _ + 1, [] => []
  | fuel + 1, c :: cs =>
    match m (c :: cs) with
    | some (g, rest) => g :: finditerAux m fuel rest
    | none => finditerAux m fuel cs

/-- All matches of a pattern in a string, in order. -/
def finditer (m : List Char → Option ((List Char × List Char) × List Char))
    (s : List Char) : List (List Char × List Char) :=
  finditerAux m s.length s

/-- The `(name, content)` pairs produced by the `META_RE` loop of
`read_meta_from_html`: `name = group(1).strip().lower()`,
`content = group(2).strip()`. -/
def primaryPairs (html : String) : List (String × String) :=
  (finditer META_RE_matchAt html.toList).map
    (fun g => (String.mk (pyLower (pyStrip g.1)), String.mk (pyStrip g.2)))

/-- The `(name, content)` pairs produced by the `META_RE_ALT` loop of
`read_meta_from_html`: group 1 is the content and group 2 the name. -/
def altPairs (html : String) : List (String × String) :=
  (finditer META_RE_ALT_matchAt html.toList).map
    (fun g => (String.mk (pyLower (pyStrip g.2)), String.mk (pyStrip g.1)))

/-- The Python dict `data`, observed through `get`/`in`. -/
def Meta : Type := String → Option String

/-- The initial empty dict `data`. -/
def emptyMeta : Meta := fun _ => none

/-- Dict assignment `data[k] = v`. -/
def dictInsert (m : Meta) (k v : String) : Meta :=
  fun x => if x = k then some v else m x

/-- The function `read_meta_from_html`: insert every primary-pattern pair (later
assignments overwriting earlier ones), then every alternate-pattern pair
guarded by `if name not in data`. -/
def read_meta_from_html (html : String) : Meta :=
  let d := (primaryPairs html).foldl (fun m p => dictInsert m p.1 p.2) emptyMeta
  (altPairs html).foldl
    (fun m p => if (m p.1).isSome then m else dictInsert m p.1 p.2) d




/-! Section: `datetime.strptime(s, %Y-%m-%d)` and the RFC-822 rendering  -/

/-- Digit value of an ASCII digit. -/
def digitVal (c : Char) : Nat := c.toNat - 48

/-- Fragment `%Y` of `_strptime`: exactly four digits. -/
def parseYear : List Char → Option (Nat × List Char)
  | a :: b :: c :: d :: rest =>
    if a.isDigit && b.isDigit && c.isDigit && d.isDigit then
      some (1000 * digitVal a + 100 * digitVal b + 10 * digitVal c + digitVal d, rest)
    else none
  | _ => none

/-- Fragment `%m` of `_strptime`: `1[0-2]|0[1-9]|[1-9]`, alternatives in order.
Committing to a two-digit alternative is faithful: the regex continues
with a literal hyphen, which can never match the digit a one-digit
retreat would leave in front of it. -/
def parseMonth : List Char → Option (Nat × List Char)
  | [] => none
  | [c] => if c.isDigit && c != '0' then some (digitVal c, []) else none
  | c :: d :: rest =>
    if c == '1' && (d == '0' || d == '1' || d == '2') then some (10 + digitVal d, rest)
    else if c == '0' && d.isDigit && d != '0' then some (digitVal d, rest)
    else if c.isDigit && c != '0' then some (digitVal c, d :: rest)
    else none

/-- Fragment `%d` of `_strptime`: `3[01]|[12]\d|0[1-9]|[1-9]`, alternatives in
order; `re.match` commits to the first alternative that lets the whole
pattern succeed, and the leftover-input check happens only afterwards. -/
def parseDay : List Char → Option (Nat × List Char)
  | [] => none
  | [c] => if c.isDigit && c != '0' then some (digitVal c, []) else none
  | c :: d :: rest =>
    if c == '3' && (d == '0' || d == '1') then some (30 + digitVal d, rest)
    else if (c == '1' || c == '2') && d.isDigit then
      some (10 * digitVal c + digitVal d, rest)
    else if c == '0' && d.isDigit && d != '0' then some (digitVal d, rest)
    else if c.isDigit && c != '0' then some (digitVal c, d :: rest)
    else none

/-- The literal `-` of the format string. -/
def parseDash : List Char → Option (List Char)
  | [] => none
  | c :: cs => if c == '-' then some cs else none

/-- Gregorian leap year, as in Python `calendar.isleap`. -/
def isLeapYear (y : Nat) : Bool := (y % 4 == 0 && y % 100 != 0) || y % 400 == 0

/-- Days in a month, as in `datetime`. -/
def daysInMonth (y m : Nat) : Nat :=
  if m == 2 then (if isLeapYear y then 29 else 28)
  else if m == 4 || m == 6 || m == 9 || m == 11 then 30
  else 31

/-- Model of `datetime.strptime(s, %Y-%m-%d)`: the anchored format regex, the
no-leftover check, and the `date(y, m, d)` constructor checks
(`MINYEAR = 1` and the day range of the month). -/
def strptimeYMD (s : String) : Option (Nat × Nat × Nat) := do
  let (y, r) ← parseYear s.toList
  let r ← parseDash r
  let (m, r) ← parseMonth r
  let r ← parseDash r
  let (d, r) ← parseDay r
  guard (r = [])
  guard (1 ≤ y)
  guard (1 ≤ d && d ≤ daysInMonth y m)
  pure (y, m, d)

/-- Model of `date.toordinal`: days before year `y` in the proleptic Gregorian
calendar. -/
def daysBeforeYear (y : Nat) : Nat :=
  (y - 1) * 365 + (y - 1) / 4 - (y - 1) / 100 + (y - 1) / 400

/-- Days before month `m` (1-indexed) of year `y`. -/
def daysBeforeMonth (y m : Nat) : Nat :=
  [0, 0, 31, 59, 90, 120, 151, 181, 212, 243, 273, 304, 334].getD m 0 +
    (if 2 < m && isLeapYear y then 1 else 0)

/-- Model of `date(y, m, d).toordinal()`. -/
def toOrdinal (y m d : Nat) : Nat := daysBeforeYear y + daysBeforeMonth y m + d

/-- The `%a` day abbreviations, indexed by `date.weekday()` (Monday = 0). -/
def DAY_ABBR : List String := ["Mon", "Tue", "Wed", "Thu", "Fri", "Sat", "Sun"]

/-- The `%b` month abbreviations, 1-indexed. -/
def MONTH_ABBR : List String :=
  ["", "Jan", "Feb", "Mar", "Apr", "May", "Jun",
   "Jul", "Aug", "Sep", "Oct", "Nov", "Dec"]

/-- Two-digit zero-padded rendering (`%d`). -/
def pad2 (n : Nat) : String := if n < 10 then "0" ++ toString n else toString n

/-- Model of `dt.strftime(%a, %d %b %Y 00:00:00 GMT)`. -/
def strftimeRfc822 (y m d : Nat) : String :=
  DAY_ABBR.getD ((toOrdinal y m d + 6) % 7) "" ++ ", " ++ pad2 d ++ " " ++
    MONTH_ABBR.getD m "" ++ " " ++ toString y ++ " 00:00:00 GMT"

/-- The function `format_rss_date`: render the parsed date in RFC-822 form, or pass
the string through unchanged when `strptime` raises `ValueError`. -/
def format_rss_date (date_str : String) : String :=
  match strptimeYMD date_str with
  | some (y, m, d) => strftimeRfc822 y m d
  | none => date_str

example : format_rss_date "2025-06-01" = "Sun, 01 Jun 2025 00:00:00 GMT" := by decide
example : format_rss_date "2025-6-1" = "Sun, 01 Jun 2025 00:00:00 GMT" := by decide
example : format_rss_date "2024-02-29" = "Thu, 29 Feb 2024 00:00:00 GMT" := by decide
example : format_rss_date "2025-13-01" = "2025-13-01" := by decide
example : format_rss_date "2025-02-30" = "2025-02-30" := by decide
example : format_rss_date "0000-01-01" = "0000-01-01" := by decide
example : format_rss_date "2025-1-123" = "2025-1-123" := by decide
example : format_rss_date "not-a-date" = "not-a-date" := by decide

/-! Section: `gather_posts`  -/

/-- One post record, as appended to `posts`. -/
structure Post where
  slug : String
  url : String
  title : String
  date : String
  updated : String
  summary : String
  thumb : String
  tags : List String
deriving Repr, DecidableEq

/-- One immediate child of the `posts` directory: its name, whether it is
a directory, and the content of its `index.html` if that file exists. -/
structure Entry where
  name : String
  isDir : Bool
  indexHtml : Option String
deriving Repr, DecidableEq

/-- The `WARN` prints of `gather_posts`, one constructor per print
statement. -/
inductive SkipReason where
  | postsDirMissing
  | noIndexHtml (folder : String)
  | missingDate (slug : String)
  | invalidDate (slug : String) (date : String)
deriving Repr, DecidableEq

/-- Python `a or b` for a string `a` that may be absent: the empty string
is falsy, so it falls through to `b` exactly as `None` does. -/
def pyOrStr (a : Option String) (b : String) : String :=
  match a with
  | some s => if s = "" then b else s
  | none => b

/-- Python `a or b` where `b` is itself `meta.get(...)`. -/
def pyOrOpt (a b : Option String) : Option String :=
  match a with
  | some s => if s = "" then b else some s
  | none => b

/-- Assignment `slug = meta.get('post-slug') or name`. -/
def slug_of (name : String) (meta : Meta) : String :=
  pyOrStr (meta "post-slug") name

/-- Assignment `title = meta.get('post-title') or meta.get('title') or slug`. -/
def title_of (slug : String) (meta : Meta) : String :=
  pyOrStr (pyOrOpt (meta "post-title") (meta "title")) slug

/-- Assignment `summary = meta.get('post-summary') or meta.get('description', '')`. -/
def summary_of (meta : Meta) : String :=
  pyOrStr (meta "post-summary") ((meta "description").getD "")

/-- Python `s.split(',')` on a character list, with the chunk read so
far accumulated in reverse: splitting the empty string yields one empty
chunk, and adjacent commas yield empty chunks. -/
def splitCommaAux : List Char → List Char → List String
  | [], acc => [String.mk acc.reverse]
  | c :: cs, acc =>
    if c == ',' then String.mk acc.reverse :: splitCommaAux cs []
    else splitCommaAux cs (c :: acc)

/-- The comprehension `[t.strip() for t in tags_raw.split(',') if t.strip()]`. -/
def parseTags (tags_raw : String) : List String :=
  ((splitCommaAux tags_raw.toList []).map (fun t => String.mk (pyStrip t.toList))).filter
    (fun t => t ≠ "")

/-- The loop body of `gather_posts` from metadata extraction onward:
field fallbacks, the `if not date` check, the `strptime` format check,
and the record construction.  Returns the appended record (if any) and
the `WARN` prints. -/
def postResult (name : String) (meta : Meta) : Option Post × List SkipReason :=
  let slug := slug_of name meta
  let title := title_of slug meta
  let summary := summary_of meta
  let thumb := (meta "post-thumb").getD ""
  let tags_raw := (meta "post-tags").getD ""
  let updated := (meta "post-updated").getD ""
  let tags := parseTags tags_raw
  match meta "post-date" with
  | none => (none, [SkipReason.missingDate slug])
  | some date =>
    if date = "" then (none, [SkipReason.missingDate slug])
    else if (strptimeYMD date).isNone then (none, [SkipReason.invalidDate slug date])
    else
      (some { slug, url := "/posts/" ++ slug ++ "/", title, date, updated,
              summary, thumb, tags }, [])

/-- One iteration of the `for name in os.listdir(POSTS_DIR)` loop. -/
def entryStep (e : Entry) : Option Post × List SkipReason :=
  if !e.isDir then (none, [])
  else
    match e.indexHtml with
    | none => (none, [SkipReason.noIndexHtml e.name])
    | some html => postResult e.name (read_meta_from_html html)

/-- The records appended by the loop, in discovery (listdir) order. -/
def collectedPosts (es : List Entry) : List Post :=
  es.filterMap (fun e => (entryStep e).1)

/-- The warnings printed by the loop, in order. -/
def gatherWarns (es : List Entry) : List SkipReason :=
  (es.map (fun e => (entryStep e).2)).flatten

/-- Python `posts.sort(key=lambda p: p['date'], reverse=True)` is a stable sort
that puts `a` before `b` when `a['date'] > b['date']`; its ordering
relation is `b.date ≤ a.date` on the Python (code-point lexicographic)
string order, which Lean's `String` order matches. -/
def postLe (a b : Post) : Bool := decide (b.date ≤ a.date)

/-- The function `gather_posts`, with the filesystem input made explicit: `none` when
`POSTS_DIR` is not a directory, otherwise the listing.  Returns the
sorted records and the warnings. -/
def gather_posts : Option (List Entry) → List Post × List SkipReason
  | none => ([], [SkipReason.postsDirMissing])
  | some es => ((collectedPosts es).mergeSort postLe, gatherWarns es)

/-! Section: `write_paginated_indexes`  -/

/-- Configuration constants of the script. -/
def PER_PAGE : Nat := 20

def SITE_URL : String := "https://comparellms.in"

def SITE_NAME : String := "comparellms"

def SITE_DESCRIPTION : String := "Daily LLM comparisons and AI model benchmarks"

/-- The JSON object written to `posts-index-page-N.json`. -/
structure PageFile where
  page : Nat
  per_page : Nat
  total_posts : Nat
  total_pages : Nat
  posts : List Post
deriving Repr, DecidableEq

/-- The JSON object written to `posts-index.json`. -/
structure MainIndexFile where
  page : Nat
  per_page : Nat
  total_posts : Nat
  total_pages : Nat
deriving Repr, DecidableEq

/-- Assignment `total_pages = max(1, (total + PER_PAGE - 1) // PER_PAGE)`. -/
def total_pages_of (posts : List Post) : Nat :=
  max 1 ((posts.length + PER_PAGE - 1) / PER_PAGE)

/-- The function `write_paginated_indexes`: the per-page files written by the
`for page in range(1, total_pages + 1)` loop, and the main pointer file. -/
def write_paginated_indexes (posts : List Post) : List PageFile × MainIndexFile :=
  let total := posts.length
  let total_pages := total_pages_of posts
  ((List.range total_pages).map (fun k =>
      let page := k + 1
      let start := (page - 1) * PER_PAGE
      { page, per_page := PER_PAGE, total_posts := total, total_pages,
        posts := (posts.drop start).take PER_PAGE }),
   { page := 1, per_page := PER_PAGE, total_posts := total, total_pages })

/-! Section: The XML writers  -/

/-- An `xml.etree.ElementTree` element: tag, attributes in assignment
order, text, children in `SubElement` order. -/
inductive Xml where
  | el (tag : String) (attrs : List (String × String)) (text : Option String)
       (children : List Xml)

def Xml.tag : Xml → String
  | .el t _ _ _ => t

def Xml.attrs : Xml → List (String × String)
  | .el _ a _ _ => a

def Xml.text : Xml → Option String
  | .el _ _ tx _ => tx

def Xml.children : Xml → List Xml
  | .el _ _ _ cs => cs

/-- A `SubElement` whose only content is text. -/
def textEl (tag : String) (tx : String) : Xml := .el tag [] (some tx) []

/-- Python `SITE_URL.rstrip('/')`. -/
def rstripSlash (s : String) : String :=
  String.mk ((s.toList.reverse.dropWhile (fun c => c == '/')).reverse)

/-- The hardcoded `static_pages` list: (path, lastmod, changefreq,
priority). -/
def static_pages : List (String × String × String × String) :=
  [("/", "2025-01-01", "daily", "1.0"),
   ("/blog/", "2025-01-01", "daily", "0.9"),
   ("/about.html", "2025-01-01", "monthly", "0.5"),
   ("/contact.html", "2025-01-01", "monthly", "0.5"),
   ("/ai-content-policy.html", "2025-01-01", "monthly", "0.5")]

/-- The `url` element built for one static page. -/
def staticUrlEl (q : String × String × String × String) : Xml :=
  Xml.el "url" [] none
    [textEl "loc" (rstripSlash SITE_URL ++ q.1),
     textEl "lastmod" q.2.1,
     textEl "changefreq" q.2.2.1,
     textEl "priority" q.2.2.2]

/-- The `url` element built for one post: `loc` is the base URL plus the
post's `url`, `lastmod` is `post.get('updated') or post['date']`. -/
def postUrlEl (p : Post) : Xml :=
  Xml.el "url" [] none
    [textEl "loc" (rstripSlash SITE_URL ++ p.url),
     textEl "lastmod" (pyOrStr (some p.updated) p.date),
     textEl "changefreq" "monthly",
     textEl "priority" "0.7"]

/-- The function `write_sitemap`: the `urlset` element, static pages first (in
declaration order), then one entry per post in the incoming order. -/
def write_sitemap (posts : List Post) : Xml :=
  Xml.el "urlset" [("xmlns", "http://www.sitemaps.org/schemas/sitemap/0.9")] none
    (static_pages.map staticUrlEl ++ posts.map postUrlEl)

/-- The children of the sitemap root, i.e. its flat entry list. -/
def sitemapEntries (posts : List Post) : List Xml :=
  (write_sitemap posts).children

/-- The `item` element built for one post by `write_rss`. -/
def rssItem (p : Post) : Xml :=
  Xml.el "item" [] none
    ([textEl "title" p.title,
      textEl "link" (rstripSlash SITE_URL ++ p.url),
      textEl "guid" (rstripSlash SITE_URL ++ p.url),
      textEl "pubDate" (format_rss_date p.date),
      textEl "description" p.summary] ++
     p.tags.map (fun t => textEl "category" t))

/-- The function `write_rss`: the `rss` element; `now` is the
`datetime.utcnow().strftime(...)` build timestamp, made a parameter.
The channel holds six fixed children followed by the items for
`posts[:50]`. -/
def write_rss (now : String) (posts : List Post) : Xml :=
  Xml.el "rss" [("version", "2.0"), ("xmlns:atom", "http://www.w3.org/2005/Atom")] none
    [Xml.el "channel" [] none
      ([textEl "title" SITE_NAME,
        textEl "link" SITE_URL,
        textEl "description" SITE_DESCRIPTION,
        textEl "language" "en-us",
        textEl "lastBuildDate" now,
        Xml.el "\x7bhttp://www.w3.org/2005/Atom\x7dlink"
          [("href", SITE_URL ++ "/rss.xml"), ("rel", "self"),
           ("type", "application/rss+xml")] none []] ++
       (posts.take 50).map rssItem)]

/-- The channel element of the feed. -/
def rssChannel (now : String) (posts : List Post) : Xml :=
  ((write_rss now posts).children.getD 0 (textEl "" ""))

/-- The item elements of the feed, in order. -/
def rssItems (now : String) (posts : List Post) : List Xml :=
  (rssChannel now posts).children.drop 6

/-! Fixtures used by the witness theorems below. -/

/-- A metadata dict with one key made absent. -/
def metaErase (m : Meta) (k : String) : Meta :=
  fun x => if x = k then none else m x

/-- Fixture for the C2 witness: an entry with a valid date. -/
def entGood : Entry :=
  { name := "p1", isDir := true,
    indexHtml := some "<meta name=\"post-date\" content=\"2025-06-01\">" }

/-- Fixture for the C2 witness: an entry with a malformed date. -/
def entBadDate : Entry :=
  { name := "p2", isDir := true,
    indexHtml := some "<meta name=\"post-date\" content=\"junk\">" }

/-- The record `gather_posts` builds from `entGood`. -/
def postGood : Post :=
  { slug := "p1", url := "/posts/p1/", title := "p1", date := "2025-06-01",
    updated := "", summary := "", thumb := "", tags := [] }

/-- Fixture for the C3 witness: the later post, discovered first. -/
def entFeb : Entry :=
  { name := "pa", isDir := true,
    indexHtml := some "<meta name=\"post-date\" content=\"2025-02-01\">" }

/-- Fixture for the C3 witness: the earlier post, discovered second. -/
def entJan : Entry :=
  { name := "pb", isDir := true,
    indexHtml := some "<meta name=\"post-date\" content=\"2025-01-01\">" }

/-- The record built from `entFeb`. -/
def postFeb : Post :=
  { slug := "pa", url := "/posts/pa/", title := "pa", date := "2025-02-01",
    updated := "", summary := "", thumb := "", tags := [] }

/-- The record built from `entJan`. -/
def postJan : Post :=
  { slug := "pb", url := "/posts/pb/", title := "pb", date := "2025-01-01",
    updated := "", summary := "", thumb := "", tags := [] }

/-- Fixture for the C6 witness. -/
def wSitePost : Post :=
  { slug := "w1", url := "/posts/w1/", title := "T", date := "2025-06-01",
    updated := "", summary := "S", thumb := "", tags := [] }

/-- Fixture for the C7 witness: the round-trip example of the spec. -/
def wRssPost : Post :=
  { slug := "foo", url := "/posts/foo/", title := "Foo", date := "2025-06-01",
    updated := "", summary := "", thumb := "", tags := ["a", "b"] }

/-! Section: Helper lemmas  -/

/-- The count `max(1, (n + 19) // 20)` is the rational ceiling of `n / 20`,
floored at one. -/
theorem nat_ceil_div_20 (n : Nat) : ⌈(n : ℚ) / 20⌉₊ = (n + 19) / 20 := by
  apply le_antisymm
  · apply Nat.ceil_le.mpr
    rw [div_le_iff₀ (by norm_num : (0 : ℚ) < 20)]
    have h1 : n ≤ (n + 19) / 20 * 20 := by omega
    exact_mod_cast h1
  · have hle := Nat.le_ceil ((n : ℚ) / 20)
    rw [div_le_iff₀ (by norm_num : (0 : ℚ) < 20)] at hle
    have h2 : n ≤ ⌈(n : ℚ) / 20⌉₊ * 20 := by exact_mod_cast hle
    omega

/-- A successful `postResult` record carries a date accepted by
`strptime`. -/
theorem postResult_date_valid (name : String) (meta : Meta) (p : Post)
    (h : (postResult name meta).1 = some p) : (strptimeYMD p.date).isSome = true := by
  unfold postResult at h
  cases hd : meta "post-date" with
  | none => simp [hd] at h
  | some date =>
    rw [hd] at h
    by_cases he : date = ""
    · simp [he] at h
    · by_cases hv : (strptimeYMD date).isNone
      · simp [he, hv] at h
      · simp only [he, hv, if_false, if_neg, Option.some.injEq] at h
        cases h
        simpa [Option.isNone_iff_eq_none, ← Option.ne_none_iff_isSome] using hv

/-- A successful `entryStep` record carries a date accepted by
`strptime`. -/
theorem entryStep_date_valid (e : Entry) (p : Post)
    (h : (entryStep e).1 = some p) : (strptimeYMD p.date).isSome = true := by
  unfold entryStep at h
  by_cases hdir : e.isDir
  · rw [hdir] at h
    cases hi : e.indexHtml with
    | none => simp [hi] at h
    | some html =>
      rw [hi] at h
      exact postResult_date_valid e.name (read_meta_from_html html) p h
  · simp [hdir] at h

/-! Section: C1  -/

/-- C1: the claim that the Metadata Extractor recognizes both textual
orderings fails on the code.  `META_RE_ALT` was written `s+` where `\s+`
was intended, so the ordinary alternate ordering
`<meta content="..." name="...">` (whitespace between the two
attributes) matches neither regex and the extractor returns nothing for
it, while an input with a literal letter run `"s` between content and
name does match.  The primary ordering works as claimed. -/
theorem read_meta_alt_ordering_not_recognized :
    read_meta_from_html "<meta name=\"post-date\" content=\"2025-06-01\">" "post-date" =
        some "2025-06-01" ∧
    read_meta_from_html "<meta content=\"2025-06-01\" name=\"post-date\">" "post-date" =
        none ∧
    read_meta_from_html "<meta content=\"2025-06-01\"sname=\"post-date\">" "post-date" =
        some "2025-06-01" :=
  ⟨by decide, by decide, by decide⟩

/-! Section: C4  -/

/-- C4: for every post list of length `n` the Index Writer produces
`max 1 ⌈n / 20⌉` page artifacts, and with zero posts it produces exactly
one artifact, an empty page 1. -/
theorem write_paginated_total_pages (posts : List Post) :
    (write_paginated_indexes posts).1.length = max 1 ⌈(posts.length : ℚ) / 20⌉₊ ∧
    (write_paginated_indexes []).1 =
      [{ page := 1, per_page := 20, total_posts := 0, total_pages := 1,
         posts := [] }] := by
  constructor
  · have h := nat_ceil_div_20 posts.length
    simp only [write_paginated_indexes, total_pages_of, PER_PAGE,
      List.length_map, List.length_range]
    omega
  · rfl

/-! Section: C8  -/

/-- C8: `format_rss_date` renders the RFC-822 form when the string
parses as `YYYY-MM-DD`, and returns the original string unchanged when
`strptime` fails; it is total either way. -/
theorem format_rss_date_spec (s : String) :
    (strptimeYMD s = none → format_rss_date s = s) ∧
    (∀ y m d, strptimeYMD s = some (y, m, d) →
      format_rss_date s = strftimeRfc822 y m d) := by
  constructor
  · intro h
    simp [format_rss_date, h]
  · intro y m d h
    simp [format_rss_date, h]

/-- Witness for C8: one failing parse passed through unchanged, one
successful parse rendered in RFC-822 form. -/
theorem format_rss_date_spec_witness :
    (strptimeYMD "not-a-date" = none ∧ format_rss_date "not-a-date" = "not-a-date") ∧
    (strptimeYMD "2025-06-01" = some (2025, 6, 1) ∧
      format_rss_date "2025-06-01" = strftimeRfc822 2025 6 1) :=
  ⟨⟨by decide, (format_rss_date_spec "not-a-date").1 (by decide)⟩,
   ⟨by decide, (format_rss_date_spec "2025-06-01").2 2025 6 1 (by decide)⟩⟩

/-! Section: C10  -/



/-- C10: a metadata value that is present but empty behaves exactly like
an absent one in every fallback chain of the collector: empty
`post-slug` falls back to the directory name, empty `post-title` falls
through `title` to the slug, empty `post-summary` falls through
`description`, and an empty `post-date` takes the missing-date skip
branch (not the invalid-format branch); in each case the result equals
the one for the key erased. -/
theorem empty_meta_value_like_absent (d : String) (m : Meta) :
    (m "post-slug" = some "" →
      slug_of d m = d ∧ slug_of d m = slug_of d (metaErase m "post-slug")) ∧
    (m "post-title" = some "" → ∀ s,
      title_of s m = pyOrStr (m "title") s ∧
      title_of s m = title_of s (metaErase m "post-title")) ∧
    (m "post-summary" = some "" →
      summary_of m = (m "description").getD "" ∧
      summary_of m = summary_of (metaErase m "post-summary")) ∧
    (m "post-date" = some "" →
      postResult d m = (none, [SkipReason.missingDate (slug_of d m)]) ∧
      postResult d m = postResult d (metaErase m "post-date")) := by
  refine ⟨fun h => ⟨?_, ?_⟩, fun h s => ⟨?_, ?_⟩, fun h => ⟨?_, ?_⟩, fun h => ⟨?_, ?_⟩⟩
  · simp [slug_of, pyOrStr, h]
  · simp [slug_of, pyOrStr, h, metaErase]
  · simp [title_of, pyOrOpt, h]
  · simp [title_of, pyOrOpt, h, metaErase]
  · simp [summary_of, pyOrStr, h]
  · simp [summary_of, pyOrStr, h, metaErase]
  · simp [postResult, h]
  · have hd : metaErase m "post-date" "post-date" = none := by simp [metaErase]
    have hs : ∀ k, k ≠ "post-date" → metaErase m "post-date" k = m k := by
      intro k hk
      simp [metaErase, hk]
    simp [postResult, h, hd, slug_of, title_of, summary_of,
      hs "post-slug" (by decide), hs "post-title" (by decide),
      hs "title" (by decide), hs "post-summary" (by decide),
      hs "description" (by decide), hs "post-thumb" (by decide),
      hs "post-tags" (by decide), hs "post-updated" (by decide)]

/-- Witness for C10 at a metadata mapping whose every value is the empty
string and directory name `dir1`. -/
theorem empty_meta_value_like_absent_witness :
    slug_of "dir1" (fun _ => some "") = "dir1" ∧
    title_of "sl" (fun _ => some "") = pyOrStr ((fun (_ : String) => some "") "title") "sl" ∧
    summary_of (fun _ => some "") = (((fun (_ : String) => some "") : Meta) "description").getD "" ∧
    postResult "dir1" (fun _ => some "") =
      (none, [SkipReason.missingDate (slug_of "dir1" (fun _ => some ""))]) := by
  have h := empty_meta_value_like_absent "dir1" (fun _ => some "")
  exact ⟨(h.1 rfl).1, (h.2.1 rfl "sl").1, (h.2.2.1 rfl).1, (h.2.2.2 rfl).1⟩

/-! Section: C9  -/

/-- Folding primary-pattern insertions over a dict: if no pair carries
key `k`, the value at `k` is unchanged. -/
theorem foldl_dictInsert_of_not_mem (ps : List (String × String)) (m : Meta) (k : String)
    (h : ps.filter (fun q => q.1 == k) = []) :
    (ps.foldl (fun m p => dictInsert m p.1 p.2) m) k = m k := by
  induction ps generalizing m with
  | nil => rfl
  | cons p rest ih =>
    rw [List.filter_cons] at h
    by_cases hk : p.1 = k
    · simp [hk] at h
    · simp only [beq_iff_eq, hk, if_false, ite_false] at h
      rw [List.foldl_cons, ih _ h]
      simp [dictInsert, Ne.symm hk]

/-- Folding primary-pattern insertions: the value at `k` is the content
of the last pair with key `k`. -/
theorem foldl_dictInsert_last (ps : List (String × String)) (m : Meta) (k : String)
    (h : ps.filter (fun q => q.1 == k) ≠ []) :
    (ps.foldl (fun m p => dictInsert m p.1 p.2) m) k =
      ((ps.filter (fun q => q.1 == k)).map Prod.snd).getLast? := by
  induction ps generalizing m with
  | nil => exact absurd rfl h
  | cons p rest ih =>
    rw [List.foldl_cons]
    by_cases hr : rest.filter (fun q => q.1 == k) = []
    · by_cases hk : p.1 = k
      · rw [foldl_dictInsert_of_not_mem rest _ k hr]
        simp [List.filter_cons, hk, hr, dictInsert]
      · rw [List.filter_cons] at h ⊢
        simp only [beq_iff_eq, hk, ite_false, if_false] at h ⊢
        exact absurd hr h
    · rw [ih _ hr, List.filter_cons]
      by_cases hk : p.1 = k
      · obtain ⟨x, xs, hcons⟩ := List.exists_cons_of_ne_nil hr
        rw [hcons]
        simp only [hk, beq_self_eq_true, if_true, ite_true, List.map_cons,
          List.getLast?_cons_cons]
      · simp [hk]

/-- The alternate-pattern loop only fills names not already present: a
key that is already bound keeps its value. -/
theorem foldl_altInsert_of_isSome (qs : List (String × String)) (m : Meta) (k : String)
    (h : (m k).isSome = true) :
    (qs.foldl (fun m p => if (m p.1).isSome then m else dictInsert m p.1 p.2) m) k = m k := by
  induction qs generalizing m with
  | nil => rfl
  | cons q rest ih =>
    rw [List.foldl_cons]
    by_cases hq : (m q.1).isSome = true
    · rw [if_pos hq, ih _ h]
    · rw [if_neg hq]
      have hne : k ≠ q.1 := by
        intro he
        rw [he] at h
        exact hq h
      have hv : dictInsert m q.1 q.2 k = m k := by
        simp [dictInsert, hne]
      rw [ih _ (by rw [hv]; exact h), hv]

/-- C9: when the primary pattern matches the same lowercased name more
than once, the extractor's mapping holds the content of the last such
match — later primary occurrences overwrite earlier ones, and the
alternate pattern cannot disturb a name the primary pattern bound. -/
theorem read_meta_primary_last_wins (html name : String)
    (h : 2 ≤ ((primaryPairs html).filter (fun q => q.1 == name)).length) :
    read_meta_from_html html name =
      (((primaryPairs html).filter (fun q => q.1 == name)).map Prod.snd).getLast? := by
  have hne : (primaryPairs html).filter (fun q => q.1 == name) ≠ [] := by
    intro hx
    rw [hx] at h
    simp at h
  have h1 := foldl_dictInsert_last (primaryPairs html) emptyMeta name hne
  have hsome :
      ((((primaryPairs html).filter (fun q => q.1 == name)).map Prod.snd).getLast?).isSome =
        true := by
    rw [List.getLast?_isSome]
    simp [List.map_eq_nil_iff, hne]
  unfold read_meta_from_html
  rw [foldl_altInsert_of_isSome _ _ _ (by rw [h1]; exact hsome)]
  exact h1

/-- Witness for C9: two primary matches for name `a`; the mapping holds
the second content. -/
theorem read_meta_primary_last_wins_witness :
    2 ≤ ((primaryPairs "<meta name=\"a\" content=\"1\"><meta name=\"a\" content=\"2\">").filter
          (fun q => q.1 == "a")).length ∧
    read_meta_from_html "<meta name=\"a\" content=\"1\"><meta name=\"a\" content=\"2\">" "a" =
      (((primaryPairs "<meta name=\"a\" content=\"1\"><meta name=\"a\" content=\"2\">").filter
          (fun q => q.1 == "a")).map Prod.snd).getLast? ∧
    read_meta_from_html "<meta name=\"a\" content=\"1\"><meta name=\"a\" content=\"2\">" "a" =
      some "2" :=
  ⟨by decide,
   read_meta_primary_last_wins "<meta name=\"a\" content=\"1\"><meta name=\"a\" content=\"2\">"
     "a" (by decide),
   by decide⟩

/-! Section: C2  -/

/-- C2: every record returned by the collector has a `date` accepted by
the strict `YYYY-MM-DD` check, and any post directory whose extracted
date is missing, empty, or malformed contributes no record and produces
a warning; `gather_posts` is total, so the run continues either way. -/
theorem gather_posts_dates_valid (fs : Option (List Entry)) :
    (∀ p, p ∈ (gather_posts fs).1 → (strptimeYMD p.date).isSome = true) ∧
    (∀ es, fs = some es → ∀ e, e ∈ es → e.isDir = true →
      ∀ html, e.indexHtml = some html →
      (read_meta_from_html html "post-date" = none ∨
       read_meta_from_html html "post-date" = some "" ∨
       (∃ ds, read_meta_from_html html "post-date" = some ds ∧ strptimeYMD ds = none)) →
      (entryStep e).1 = none ∧ (entryStep e).2 ≠ []) := by
  constructor
  · intro p hp
    cases fs with
    | none => simp [gather_posts] at hp
    | some es =>
      have hmem : p ∈ collectedPosts es := by
        have := hp
        rw [show (gather_posts (some es)).1 = (collectedPosts es).mergeSort postLe from rfl,
          List.mem_mergeSort] at this
        exact this
      obtain ⟨e, _, he⟩ := List.mem_filterMap.mp hmem
      exact entryStep_date_valid e p he
  · intro es _ e _ hdir html hhtml hbad
    have hstep : entryStep e = postResult e.name (read_meta_from_html html) := by
      unfold entryStep
      rw [hdir, hhtml]
      simp
    rw [hstep]
    rcases hbad with hn | he | ⟨ds, hds, hnone⟩
    · unfold postResult
      rw [hn]
      exact ⟨rfl, by simp⟩
    · unfold postResult
      rw [he]
      exact ⟨rfl, by simp⟩
    · unfold postResult
      rw [hds]
      by_cases hemp : ds = ""
      · simp [hemp]
      · simp [hemp, hnone]







/-- Witness for C2: one entry with a valid date contributes the expected
record (whose date parses), and one entry whose date is malformed is
skipped with a warning. -/
theorem gather_posts_dates_valid_witness :
    postGood ∈ (gather_posts (some [entGood, entBadDate])).1 ∧
    (strptimeYMD postGood.date).isSome = true ∧
    (entryStep entBadDate).1 = none ∧
    (entryStep entBadDate).2 ≠ [] := by
  have hmem : postGood ∈ (gather_posts (some [entGood, entBadDate])).1 := by
    rw [show (gather_posts (some [entGood, entBadDate])).1 =
        (collectedPosts [entGood, entBadDate]).mergeSort postLe from rfl,
      List.mem_mergeSort]
    decide
  have h := gather_posts_dates_valid (some [entGood, entBadDate])
  exact ⟨hmem, h.1 _ hmem,
    h.2 _ rfl entBadDate (by decide) rfl
      "<meta name=\"post-date\" content=\"junk\">" rfl
      (Or.inr (Or.inr ⟨"junk", by decide, by decide⟩))⟩

/-! Section: C3  -/

/-- The relation `postLe` is transitive. -/
theorem postLe_trans (a b c : Post) (h1 : postLe a b = true) (h2 : postLe b c = true) :
    postLe a c = true := by
  simp only [postLe, decide_eq_true_eq] at h1 h2 ⊢
  exact le_trans h2 h1

/-- The relation `postLe` is total. -/
theorem postLe_total (a b : Post) : (postLe a b || postLe b a) = true := by
  simp only [postLe, Bool.or_eq_true, decide_eq_true_eq]
  exact le_total b.date a.date

/-- C3: the collector's output is sorted non-increasing by `date` — for
positions `i < j` the date at `j` never exceeds the date at `i`, so a
post with a strictly greater date always appears earlier — and posts
with equal dates keep their discovery order: filtering the output by any
date value gives exactly the discovery-order filtering of the collected
records. -/
theorem gather_posts_sorted_stable (es : List Entry) :
    (∀ (i j : Nat) (a b : Post), i < j →
      (gather_posts (some es)).1[i]? = some a →
      (gather_posts (some es)).1[j]? = some b →
      b.date ≤ a.date) ∧
    (∀ d : String,
      (gather_posts (some es)).1.filter (fun p => p.date == d) =
        (collectedPosts es).filter (fun p => p.date == d)) := by
  have hout : (gather_posts (some es)).1 = (collectedPosts es).mergeSort postLe := rfl
  constructor
  · intro i j a b hij ha hb
    have hpair := List.sorted_mergeSort postLe_trans postLe_total (collectedPosts es)
    rw [List.pairwise_iff_getElem] at hpair
    rw [hout] at ha hb
    obtain ⟨hi, hia⟩ := List.getElem?_eq_some_iff.mp ha
    obtain ⟨hj, hjb⟩ := List.getElem?_eq_some_iff.mp hb
    have hrel := hpair i j hi hj hij
    rw [hia, hjb] at hrel
    simpa [postLe] using hrel
  · intro d
    rw [hout]
    set coll := collectedPosts es with hcoll
    set c := coll.filter (fun p => p.date == d) with hc
    have hcP : ∀ p, p ∈ c → p.date = d := by
      intro p hp
      have := (List.mem_filter.mp hp).2
      simpa using this
    have hpairc : c.Pairwise (fun a b => postLe a b = true) := by
      rw [List.pairwise_iff_getElem]
      intro i j hi hj _
      simp only [postLe, decide_eq_true_eq]
      rw [hcP _ (List.getElem_mem hi), hcP _ (List.getElem_mem hj)]
    have hsub : List.Sublist c (coll.mergeSort postLe) :=
      List.sublist_mergeSort postLe_trans postLe_total hpairc (List.filter_sublist coll)
    have hsub2 : List.Sublist c ((coll.mergeSort postLe).filter (fun p => p.date == d)) := by
      have hf := hsub.filter (fun p => p.date == d)
      rwa [List.filter_eq_self.mpr (fun a ha => by simp [hcP a ha])] at hf
    have hperm : List.Perm ((coll.mergeSort postLe).filter (fun p => p.date == d)) c :=
      (List.mergeSort_perm coll postLe).filter _
    exact (hsub2.eq_of_length hperm.length_eq.symm).symm









/-- Witness for C3 on a two-post collection. -/
theorem gather_posts_sorted_stable_witness :
    (0 : Nat) < 1 ∧
    (gather_posts (some [entFeb, entJan])).1[0]? = some postFeb ∧
    (gather_posts (some [entFeb, entJan])).1[1]? = some postJan ∧
    postJan.date ≤ postFeb.date ∧
    (gather_posts (some [entFeb, entJan])).1.filter (fun p => p.date == "2025-01-01") =
      (collectedPosts [entFeb, entJan]).filter (fun p => p.date == "2025-01-01") := by
  have hcoll : collectedPosts [entFeb, entJan] = [postFeb, postJan] := by decide
  have hle : postLe postFeb postJan = true := by
    simp only [postLe, decide_eq_true_eq, postFeb, postJan]
    rw [String.le_iff_toList_le]
    decide
  have hout : (gather_posts (some [entFeb, entJan])).1 = [postFeb, postJan] := by
    show (collectedPosts [entFeb, entJan]).mergeSort postLe = _
    rw [hcoll, List.mergeSort_of_sorted (by simp [List.pairwise_cons, hle])]
  refine ⟨by decide, by rw [hout]; rfl, by rw [hout]; rfl, ?_, ?_⟩
  · exact (gather_posts_sorted_stable [entFeb, entJan]).1 0 1 postFeb postJan
      (by decide) (by rw [hout]; rfl) (by rw [hout]; rfl)
  · exact (gather_posts_sorted_stable [entFeb, entJan]).2 "2025-01-01"

/-! Section: C5  -/

/-- Concatenating the first `tp` page slices of a list recovers its
first `tp * PER_PAGE` elements. -/
theorem flatten_page_slices (l : List Post) (tp : Nat) :
    ((List.range tp).map (fun k => (l.drop (k * PER_PAGE)).take PER_PAGE)).flatten =
      l.take (tp * PER_PAGE) := by
  induction tp with
  | zero => simp
  | succ n ih =>
    rw [List.range_succ, List.map_append, List.flatten_append, ih]
    simp only [List.map_cons, List.map_nil, List.flatten_cons, List.flatten_nil,
      List.append_nil]
    rw [Nat.succ_mul, List.take_add]

/-- The post count never exceeds `total_pages * PER_PAGE`. -/
theorem length_le_total_pages_mul (posts : List Post) :
    posts.length ≤ total_pages_of posts * PER_PAGE := by
  have h1 : (posts.length + PER_PAGE - 1) / PER_PAGE ≤ total_pages_of posts :=
    le_max_right 1 _
  have h2 : posts.length ≤ (posts.length + PER_PAGE - 1) / PER_PAGE * PER_PAGE := by
    simp only [PER_PAGE]
    omega
  exact h2.trans (Nat.mul_le_mul_right PER_PAGE h1)

/-- C5: page `N` (1-indexed, `1 ≤ N ≤ total_pages`) holds exactly the
records at offsets `(N-1)*20` through `N*20` (exclusive) of the sorted
list, in order, and the post counts of all pages sum to the total. -/
theorem write_paginated_page_slices (posts : List Post) :
    (∀ (N i : Nat), 1 ≤ N → N ≤ total_pages_of posts →
      ((write_paginated_indexes posts).1[N - 1]?).map PageFile.page = some N ∧
      ((write_paginated_indexes posts).1[N - 1]?).bind (fun pf => pf.posts[i]?) =
        (if (N - 1) * PER_PAGE + i < N * PER_PAGE
         then posts[(N - 1) * PER_PAGE + i]?
         else none)) ∧
    ((write_paginated_indexes posts).1.map (fun pf => pf.posts.length)).sum =
      posts.length := by
  constructor
  · intro N i h1 h2
    have hlt : N - 1 < total_pages_of posts := by omega
    have hrange : (List.range (total_pages_of posts))[N - 1]? = some (N - 1) :=
      List.getElem?_range hlt
    have hpage :
        (write_paginated_indexes posts).1[N - 1]? = some
          { page := N - 1 + 1, per_page := PER_PAGE, total_posts := posts.length,
            total_pages := total_pages_of posts,
            posts := (posts.drop ((N - 1) * PER_PAGE)).take PER_PAGE } := by
      show ((List.range (total_pages_of posts)).map _)[N - 1]? = _
      rw [List.getElem?_map, hrange]
      rfl
    rw [hpage]
    constructor
    · show some (N - 1 + 1) = some N
      congr 1
      omega
    · show ((posts.drop ((N - 1) * PER_PAGE)).take PER_PAGE)[i]? = _
      rw [List.getElem?_take, List.getElem?_drop]
      have hiff : (i < PER_PAGE) ↔ ((N - 1) * PER_PAGE + i < N * PER_PAGE) := by
        simp only [PER_PAGE]
        omega
      by_cases hi : i < PER_PAGE
      · rw [if_pos hi, if_pos (hiff.mp hi)]
      · rw [if_neg hi, if_neg (fun hc => hi (hiff.mpr hc))]
  · have hflat := flatten_page_slices posts (total_pages_of posts)
    have hle := length_le_total_pages_mul posts
    have hmap2 :
        (write_paginated_indexes posts).1.map (fun pf => pf.posts.length) =
          ((List.range (total_pages_of posts)).map
            (fun k => (posts.drop (k * PER_PAGE)).take PER_PAGE)).map List.length := by
      simp only [write_paginated_indexes, List.map_map]
      rfl
    rw [hmap2, ← List.length_flatten, hflat, List.length_take]
    omega

/-- Witness for C5 at the empty post list and page 1. -/
theorem write_paginated_page_slices_witness :
    (1 : Nat) ≤ 1 ∧ 1 ≤ total_pages_of [] ∧
    ((write_paginated_indexes []).1[(1 : Nat) - 1]?).map PageFile.page = some 1 ∧
    ((write_paginated_indexes []).1[(1 : Nat) - 1]?).bind (fun pf => pf.posts[(0 : Nat)]?) =
      (if ((1 : Nat) - 1) * PER_PAGE + 0 < 1 * PER_PAGE
       then ([] : List Post)[((1 : Nat) - 1) * PER_PAGE + 0]?
       else none) ∧
    ((write_paginated_indexes ([] : List Post)).1.map (fun pf => pf.posts.length)).sum =
      ([] : List Post).length := by
  have h := write_paginated_page_slices []
  have h1 := h.1 1 0 (by decide) (by decide)
  exact ⟨by decide, by decide, h1.1, h1.2, h.2⟩

/-! Section: C6  -/

/-- C6: the sitemap's flat entry list holds exactly the 5 static pages
first, in declaration order, then one entry per post in the incoming
order; each post entry's location is the base URL concatenated with the
post's `url`, its last-modified is `updated` when non-empty and
otherwise `date`, its change frequency is `monthly`, and its priority is
`0.7`. -/
theorem write_sitemap_entries_spec (posts : List Post) :
    (sitemapEntries posts).length = 5 + posts.length ∧
    (sitemapEntries posts).take 5 = static_pages.map staticUrlEl ∧
    (∀ (i : Nat) (p : Post), posts[i]? = some p →
      (sitemapEntries posts)[5 + i]? = some (Xml.el "url" [] none
        [textEl "loc" (rstripSlash SITE_URL ++ p.url),
         textEl "lastmod" (if p.updated = "" then p.date else p.updated),
         textEl "changefreq" "monthly",
         textEl "priority" "0.7"])) := by
  have hlen : (static_pages.map staticUrlEl).length = 5 := rfl
  refine ⟨?_, rfl, ?_⟩
  · show (static_pages.map staticUrlEl ++ posts.map postUrlEl).length = 5 + posts.length
    rw [List.length_append, hlen, List.length_map]
  · intro i p hp
    show (static_pages.map staticUrlEl ++ posts.map postUrlEl)[5 + i]? = _
    rw [List.getElem?_append_right (by rw [hlen]; omega), hlen,
      show 5 + i - 5 = i from by omega, List.getElem?_map, hp]
    rfl



/-- Witness for C6 at a one-post list. -/
theorem write_sitemap_entries_spec_witness :
    ([wSitePost] : List Post)[(0 : Nat)]? = some wSitePost ∧
    (sitemapEntries [wSitePost])[5 + 0]? = some (Xml.el "url" [] none
      [textEl "loc" (rstripSlash SITE_URL ++ "/posts/w1/"),
       textEl "lastmod" "2025-06-01",
       textEl "changefreq" "monthly",
       textEl "priority" "0.7"]) :=
  ⟨rfl, (write_sitemap_entries_spec [wSitePost]).2.2 0 wSitePost rfl⟩

/-! Section: C7  -/

/-- C7: the RSS feed holds exactly `min n 50` items — the first 50 posts
in incoming order — and each item carries the title, the absolute post
URL as both link and guid, the RFC-822-converted publish date, the
summary as description, and one category per tag in tag order. -/
theorem write_rss_items_spec (now : String) (posts : List Post) :
    (rssItems now posts).length = min posts.length 50 ∧
    (rssChannel now posts).children.countP (fun x => x.tag == "item") =
      min posts.length 50 ∧
    (∀ (i : Nat) (p : Post), i < 50 → posts[i]? = some p →
      (rssItems now posts)[i]? = some (rssItem p) ∧
      (rssItem p).children.take 5 =
        [textEl "title" p.title,
         textEl "link" (rstripSlash SITE_URL ++ p.url),
         textEl "guid" (rstripSlash SITE_URL ++ p.url),
         textEl "pubDate" (format_rss_date p.date),
         textEl "description" p.summary] ∧
      (rssItem p).children.drop 5 = p.tags.map (fun t => textEl "category" t)) := by
  have hitems : rssItems now posts = (posts.take 50).map rssItem := rfl
  have hlen : (rssItems now posts).length = min posts.length 50 := by
    rw [hitems, List.length_map, List.length_take, Nat.min_comm]
  refine ⟨hlen, ?_, ?_⟩
  · have hch : (rssChannel now posts).children =
        [textEl "title" SITE_NAME, textEl "link" SITE_URL,
         textEl "description" SITE_DESCRIPTION, textEl "language" "en-us",
         textEl "lastBuildDate" now,
         Xml.el "\x7bhttp://www.w3.org/2005/Atom\x7dlink"
           [("href", SITE_URL ++ "/rss.xml"), ("rel", "self"),
            ("type", "application/rss+xml")] none []] ++
          (posts.take 50).map rssItem := rfl
    rw [hch, List.countP_append]
    have h0 : List.countP (fun x => x.tag == "item")
        [textEl "title" SITE_NAME, textEl "link" SITE_URL,
         textEl "description" SITE_DESCRIPTION, textEl "language" "en-us",
         textEl "lastBuildDate" now,
         Xml.el "\x7bhttp://www.w3.org/2005/Atom\x7dlink"
           [("href", SITE_URL ++ "/rss.xml"), ("rel", "self"),
            ("type", "application/rss+xml")] none []] = 0 := by
      simp [List.countP_cons, textEl, Xml.tag]
    have hall : List.countP (fun x => x.tag == "item") ((posts.take 50).map rssItem) =
        ((posts.take 50).map rssItem).length := by
      rw [List.countP_eq_length]
      intro a ha
      obtain ⟨q, _, rfl⟩ := List.mem_map.mp ha
      rfl
    rw [h0, hall, List.length_map, List.length_take, Nat.min_comm]
    omega
  · intro i p hi hp
    refine ⟨?_, rfl, rfl⟩
    rw [hitems, List.getElem?_map, List.getElem?_take, if_pos hi, hp]
    rfl



/-- Witness for C7: a single post with tags `a, b` yields the item with
exactly two category entries, `a` then `b`. -/
theorem write_rss_items_spec_witness :
    (0 : Nat) < 50 ∧
    ([wRssPost] : List Post)[(0 : Nat)]? = some wRssPost ∧
    (rssItems "now" [wRssPost])[(0 : Nat)]? = some (rssItem wRssPost) ∧
    (rssItem wRssPost).children.drop 5 =
      [textEl "category" "a", textEl "category" "b"] := by
  have h := (write_rss_items_spec "now" [wRssPost]).2.2 0 wRssPost (by decide) rfl
  exact ⟨by decide, rfl, h.1, h.2.2⟩
